import Mathlib

/-!
Verification of the skill-persistence and code-validation core of the
ms-365-mcp-server repository (src/skills-storage.ts, src/builtin-skills.ts,
src/skill-tools.ts, src/code-execution.ts).

The TypeScript code is shallowly embedded as pure Lean functions:
* the file-per-record skill directory becomes a `List Skill` (one element per
  `<id>.json` file, in directory-read order);
* `Partial<M365Skill>` becomes `PartialSkill` with every field optional;
* the two `new Date().toISOString()` reads inside one synchronous block of
  `save` are modelled by a single clock parameter `now : Nat`;
* `randomUUID()` is modelled by an explicit `newId` argument (a generator
  `Nat → String` for the loops that create several records);
* `throw` becomes `Except.error`.

Fields `parameters` and `returnType` of `M365Skill` are carried by no modelled
operation except as opaque payload (every operation copies them wholesale), so
they are omitted from the record.
-/

namespace M365

/-- One persisted skill record (`M365Skill` in src/types/skill.ts).
`author`, `tags` and `isBuiltin` are optional in the TypeScript interface and
are therefore `Option`-valued; `createdAt`/`updatedAt` are ISO-8601 strings in
the source, modelled as abstract clock readings. -/
structure Skill where
  id : String
  name : String
  description : String
  category : String
  code : String
  author : Option String := none
  tags : Option (List String) := none
  createdAt : Nat
  updatedAt : Nat
  usageCount : Nat
  isPublic : Bool
  isBuiltin : Option Bool := none
deriving Repr, DecidableEq

/-- `Partial<M365Skill>`: every field may be absent. -/
structure PartialSkill where
  id : Option String := none
  name : Option String := none
  description : Option String := none
  category : Option String := none
  code : Option String := none
  author : Option String := none
  tags : Option (List String) := none
  createdAt : Option Nat := none
  updatedAt : Option Nat := none
  usageCount : Option Nat := none
  isPublic : Option Bool := none
  isBuiltin : Option Bool := none
deriving Repr, DecidableEq

/-- `SkillFilters` (src/types/skill.ts). -/
structure SkillFilters where
  category : Option String := none
  tags : Option (List String) := none
  author : Option String := none
  isPublic : Option Bool := none
  isBuiltin : Option Bool := none
deriving Repr, DecidableEq

/-- JavaScript truthiness test for an optional string: `!x` is true exactly
when the field is `undefined` or the empty string. -/
def isFalsy : Option String → Bool
  | none => true
  | some s => s = ""

/-- `needle` occurs as a contiguous run inside the character list. -/
def containsSub : List Char → List Char → Bool
  | [], needle => needle.isEmpty
  | h :: t, needle => needle.isPrefixOf (h :: t) || containsSub t needle

/-- JavaScript `haystack.includes(needle)`. -/
def strIncludes (hay needle : String) : Bool := containsSub hay.data needle.data

/-- Result record of `SkillStorage.validateCode`. -/
structure ValidationResult where
  valid : Bool
  errors : List String
deriving Repr, DecidableEq

/-- The deny-list `forbidden` of `SkillStorage.validateCode`
(src/skills-storage.ts, lines 193-202). -/
def forbidden : List String :=
  ["eval(", "Function(", "require(", "import(",
   "__dirname", "__filename", "process.exit", "child_process"]

namespace SkillStorage

/-- `SkillStorage.validateCode`: scans the script text for each deny-listed
substring, pushing one descriptive error per match; `valid` is
`errors.length === 0`. -/
def validateCode (code : String) : ValidationResult :=
  let errors := forbidden.foldl
    (fun errs p =>
      if strIncludes code p then errs ++ ["Forbidden pattern detected: " ++ p] else errs)
    []
  { valid := errors.isEmpty, errors := errors }

/-- Writing `<id>.json`: overwrites the record with the same id when such a
file exists, otherwise creates a new directory entry. -/
def writeRecord (store : List Skill) (s : Skill) : List Skill :=
  if store.any (fun t => t.id = s.id) then
    store.map (fun t => if t.id = s.id then s else t)
  else
    store ++ [s]

/-- `SkillStorage.save` (src/skills-storage.ts, lines 37-70): when the partial
skill has a falsy id, assigns `newId`, sets `createdAt`, zeroes `usageCount`
and defaults `isBuiltin` to `false` when undefined; always refreshes
`updatedAt`; then rejects falsy required fields before writing; on success
writes the full record.  The final `skill as M365Skill` cast is modelled by
defaulting the (never actually absent at this point) required fields. -/
def save (newId : String) (now : Nat) (store : List Skill) (p : PartialSkill) :
    Except String (List Skill × Skill) :=
  let p1 : PartialSkill :=
    if isFalsy p.id then
      { p with
        id := some newId
        createdAt := some now
        usageCount := some 0
        isBuiltin := match p.isBuiltin with | none => some false | some b => some b }
    else p
  let p2 : PartialSkill := { p1 with updatedAt := some now }
  if isFalsy p2.name || isFalsy p2.description || isFalsy p2.code || isFalsy p2.category then
    .error "Missing required skill fields: name, description, code, category"
  else
    let s : Skill :=
      { id := p2.id.getD ""
        name := p2.name.getD ""
        description := p2.description.getD ""
        category := p2.category.getD ""
        code := p2.code.getD ""
        author := p2.author
        tags := p2.tags
        createdAt := p2.createdAt.getD 0
        updatedAt := p2.updatedAt.getD 0
        usageCount := p2.usageCount.getD 0
        isPublic := p2.isPublic.getD false
        isBuiltin := p2.isBuiltin }
    .ok (writeRecord store s, s)

/-- The store visible after a `save` call: a thrown validation error happens
before `fs.writeFile`, so the prior state remains. -/
def savePost (newId : String) (now : Nat) (store : List Skill) (p : PartialSkill) :
    List Skill :=
  match save newId now store p with
  | .ok (store2, _) => store2
  | .error _ => store

/-- `SkillStorage.get`: point lookup of `<id>.json`; `null` when absent. -/
def get (store : List Skill) (id : String) : Option Skill :=
  store.find? (fun s => decide (s.id = id))

/-- One filter step of `SkillStorage.list` (lines 118-126).  Truthiness in the
source makes an empty-string `category`/`author` filter a no-op; an undefined
stored `isBuiltin` is treated as `false`; the `tags` filter demands at least
one shared tag (and an undefined stored tag list never matches). -/
def passesFilters (f : SkillFilters) (s : Skill) : Bool :=
  (match f.category with
   | none => true
   | some c => if c = "" then true else decide (s.category = c)) &&
  (match f.author with
   | none => true
   | some a => if a = "" then true else decide (s.author = some a)) &&
  (match f.isPublic with
   | none => true
   | some b => decide (s.isPublic = b)) &&
  (match f.isBuiltin with
   | none => true
   | some b => decide ((s.isBuiltin = some true) = (b = true))) &&
  (match f.tags with
   | none => true
   | some ts => ts.any (fun tag => (s.tags.getD []).contains tag))

/-- Stable insertion of one record into a usage-count-descending list: the new
record goes after every already-placed record whose count is `≥` its own,
exactly as V8's stable `Array.prototype.sort` with comparator
`(a, b) => b.usageCount - a.usageCount` places it. -/
def insertByUsage (x : Skill) : List Skill → List Skill
  | [] => [x]
  | y :: ys => if y.usageCount < x.usageCount then x :: y :: ys else y :: insertByUsage x ys

/-- The stable usage-count-descending sort of `SkillStorage.list` (line 135). -/
def sortByUsageDesc (l : List Skill) : List Skill :=
  l.foldl (fun acc x => insertByUsage x acc) []

/-- `SkillStorage.list` (lines 103-140): reads every record, keeps those
passing all supplied filters, and sorts by usage count, most used first. -/
def list (store : List Skill) (f : SkillFilters) : List Skill :=
  sortByUsageDesc (store.filter (passesFilters f))

/-- `SkillStorage.getByName`: first name match of the unfiltered listing. -/
def getByName (store : List Skill) (name : String) : Option Skill :=
  (list store {}).find? (fun s => decide (s.name = name))

/-- `SkillStorage.delete`: unlinks `<id>.json`, returning `false` (not an
error) when no such file exists. -/
def delete (store : List Skill) (id : String) : List Skill × Bool :=
  if store.any (fun t => t.id = id) then
    (store.filter (fun t => !(decide (t.id = id))), true)
  else
    (store, false)

/-- `Skill` back to `Partial<M365Skill>` (the loaded record handed to `save`
by `incrementUsage`): every field present. -/
def Skill.toPartial (s : Skill) : PartialSkill where
  id := some s.id
  name := some s.name
  description := some s.description
  category := some s.category
  code := some s.code
  author := s.author
  tags := s.tags
  createdAt := some s.createdAt
  updatedAt := some s.updatedAt
  usageCount := some s.usageCount
  isPublic := some s.isPublic
  isBuiltin := s.isBuiltin

/-- `SkillStorage.incrementUsage` (lines 165-171): load, bump the counter,
re-save; silently does nothing when the record does not exist. -/
def incrementUsage (newId : String) (now : Nat) (store : List Skill) (id : String) :
    Except String (List Skill) :=
  match get store id with
  | none => .ok store
  | some s =>
      (save newId now store (Skill.toPartial { s with usageCount := s.usageCount + 1 })).map
        (fun r => r.1)

end SkillStorage

/-- Built-in skill #1 of `BUILTIN_SKILLS` in builtin-skills.ts (`summarizeTodaysEmails`). -/
def builtinSkill1 : PartialSkill where
  name := some "summarizeTodaysEmails"
  description := some "Get a comprehensive summary of today\x27s emails including count, unread count, urgent emails, and top senders"
  category := some "mail"
  code := some "\n      const today = new Date();\n      today.setHours(0, 0, 0, 0);\n      const todayISO = today.toISOString();\n\n      const tomorrow = new Date(today);\n      tomorrow.setDate(tomorrow.getDate() + 1);\n      const tomorrowISO = tomorrow.toISOString();\n\n      const messages = await m365.mail.list(\x7b\n        filter: \x60receivedDateTime ge $\x7btodayISO\x7d and receivedDateTime lt $\x7btomorrowISO\x7d\x60,\n        select: \x27from,subject,importance,isRead,hasAttachments\x27,\n        top: 100\n      \x7d);\n\n      const bySender = \x7b\x7d;\n      let unreadCount = 0;\n      let urgentCount = 0;\n\n      for (const msg of messages.value) \x7b\n        const sender = msg.from.emailAddress.address;\n        if (!bySender[sender]) \x7b\n          bySender[sender] = \x7b count: 0, unread: 0, urgent: 0 \x7d;\n        \x7d\n        bySender[sender].count++;\n        if (!msg.isRead) \x7b\n          bySender[sender].unread++;\n          unreadCount++;\n        \x7d\n        if (msg.importance === \x27high\x27) \x7b\n          bySender[sender].urgent++;\n          urgentCount++;\n        \x7d\n      \x7d\n\n      const topSenders = Object.entries(bySender)\n        .sort((a, b) => b[1].count - a[1].count)\n        .slice(0, 5)\n        .map(([email, stats]) => (\x7b email, ...stats \x7d));\n\n      return \x7b\n        date: today.toISOString().split(\x27T\x27)[0],\n        total: messages.value.length,\n        unread: unreadCount,\n        urgent: urgentCount,\n        topSenders\n      \x7d;\n    "
  tags := some ["email", "summary", "daily", "report"]
  isPublic := some true
  isBuiltin := some true

/-- Built-in skill #2 of `BUILTIN_SKILLS` in builtin-skills.ts (`getUnreadUrgentEmails`). -/
def builtinSkill2 : PartialSkill where
  name := some "getUnreadUrgentEmails"
  description := some "Get all unread high-priority emails with sender, subject, and received time"
  category := some "mail"
  code := some "\n      const messages = await m365.mail.list(\x7b\n        filter: \"isRead eq false and importance eq \x27high\x27\",\n        select: \x27from,subject,receivedDateTime,bodyPreview\x27,\n        orderby: [\x27receivedDateTime desc\x27],\n        top: 50\n      \x7d);\n\n      return messages.value.map(m => (\x7b\n        from: m.from.emailAddress.address,\n        subject: m.subject,\n        preview: m.bodyPreview?.substring(0, 100),\n        received: m.receivedDateTime\n      \x7d));\n    "
  tags := some ["email", "urgent", "unread", "filter"]
  isPublic := some true
  isBuiltin := some true

/-- Built-in skill #3 of `BUILTIN_SKILLS` in builtin-skills.ts (`analyzeTodaysMeetings`). -/
def builtinSkill3 : PartialSkill where
  name := some "analyzeTodaysMeetings"
  description := some "Analyze today\x27s calendar meetings including duration, attendee count, and meeting types"
  category := some "calendar"
  code := some "\n      const today = new Date();\n      today.setHours(0, 0, 0, 0);\n      const todayISO = today.toISOString();\n\n      const tomorrow = new Date(today);\n      tomorrow.setDate(tomorrow.getDate() + 1);\n      const tomorrowISO = tomorrow.toISOString();\n\n      const events = await m365.calendar.list(\x7b\n        filter: \x60start/dateTime ge \x27$\x7btodayISO\x7d\x27 and start/dateTime lt \x27$\x7btomorrowISO\x7d\x27\x60,\n        select: \x27subject,start,end,attendees,isOnlineMeeting,organizer\x27\n      \x7d);\n\n      let totalDuration = 0;\n      let onlineMeetings = 0;\n      let totalAttendees = 0;\n      const meetings = [];\n\n      for (const event of events.value) \x7b\n        const start = new Date(event.start.dateTime);\n        const end = new Date(event.end.dateTime);\n        const duration = (end - start) / (1000 * 60); // minutes\n\n        totalDuration += duration;\n        if (event.isOnlineMeeting) onlineMeetings++;\n        totalAttendees += (event.attendees?.length || 0);\n\n        meetings.push(\x7b\n          subject: event.subject,\n          start: event.start.dateTime,\n          duration: Math.round(duration),\n          attendeeCount: event.attendees?.length || 0,\n          isOnline: event.isOnlineMeeting\n        \x7d);\n      \x7d\n\n      return \x7b\n        date: today.toISOString().split(\x27T\x27)[0],\n        totalMeetings: events.value.length,\n        totalDuration: Math.round(totalDuration),\n        averageDuration: events.value.length > 0 ? Math.round(totalDuration / events.value.length) : 0,\n        onlineMeetings,\n        totalAttendees,\n        meetings: meetings.sort((a, b) => a.start.localeCompare(b.start))\n      \x7d;\n    "
  tags := some ["calendar", "meetings", "analysis", "daily"]
  isPublic := some true
  isBuiltin := some true

/-- Built-in skill #4 of `BUILTIN_SKILLS` in builtin-skills.ts (`getOverdueTasks`). -/
def builtinSkill4 : PartialSkill where
  name := some "getOverdueTasks"
  description := some "Get all overdue Planner tasks across all plans"
  category := some "planner"
  code := some "\n      const plans = await m365.planner.listUserPlans();\n      const overdueTasks = [];\n      const today = new Date().toISOString();\n\n      for (const plan of plans.value) \x7b\n        const tasks = await m365.planner.listPlanTasks(\x7b planId: plan.id \x7d);\n\n        for (const task of tasks.value) \x7b\n          if (task.dueDateTime && task.dueDateTime < today && task.percentComplete < 100) \x7b\n            const daysOverdue = Math.floor(\n              (new Date() - new Date(task.dueDateTime)) / (1000 * 60 * 60 * 24)\n            );\n\n            overdueTasks.push(\x7b\n              planName: plan.title,\n              taskTitle: task.title,\n              dueDate: task.dueDateTime.split(\x27T\x27)[0],\n              daysOverdue,\n              priority: task.priority,\n              percentComplete: task.percentComplete\n            \x7d);\n          \x7d\n        \x7d\n      \x7d\n\n      return overdueTasks.sort((a, b) => b.daysOverdue - a.daysOverdue);\n    "
  tags := some ["planner", "tasks", "overdue", "report"]
  isPublic := some true
  isBuiltin := some true

/-- Built-in skill #5 of `BUILTIN_SKILLS` in builtin-skills.ts (`getTodaysTodoTasks`). -/
def builtinSkill5 : PartialSkill where
  name := some "getTodaysTodoTasks"
  description := some "Get all To Do tasks due today across all lists"
  category := some "todo"
  code := some "\n      const today = new Date();\n      today.setHours(0, 0, 0, 0);\n      const todayISO = today.toISOString().split(\x27T\x27)[0];\n\n      const lists = await m365.todo.listTaskLists();\n      const todaysTasks = [];\n\n      for (const list of lists.value) \x7b\n        const tasks = await m365.todo.listTasks(\x7b listId: list.id \x7d);\n\n        for (const task of tasks.value) \x7b\n          if (task.dueDateTime?.dateTime) \x7b\n            const dueDate = task.dueDateTime.dateTime.split(\x27T\x27)[0];\n            if (dueDate === todayISO && task.status !== \x27completed\x27) \x7b\n              todaysTasks.push(\x7b\n                listName: list.displayName,\n                taskTitle: task.title,\n                importance: task.importance,\n                isReminderOn: task.isReminderOn,\n                status: task.status\n              \x7d);\n            \x7d\n          \x7d\n        \x7d\n      \x7d\n\n      return \x7b\n        date: todayISO,\n        count: todaysTasks.length,\n        tasks: todaysTasks.sort((a, b) => \x7b\n          const importanceOrder = \x7b high: 0, normal: 1, low: 2 \x7d;\n          return importanceOrder[a.importance] - importanceOrder[b.importance];\n        \x7d)\n      \x7d;\n    "
  tags := some ["todo", "tasks", "daily", "due"]
  isPublic := some true
  isBuiltin := some true

/-- Built-in skill #6 of `BUILTIN_SKILLS` in builtin-skills.ts (`dailyProductivitySummary`). -/
def builtinSkill6 : PartialSkill where
  name := some "dailyProductivitySummary"
  description := some "Combined summary of emails, meetings, and tasks for today"
  category := some "general"
  code := some "\n      const today = new Date();\n      today.setHours(0, 0, 0, 0);\n      const todayISO = today.toISOString();\n      const tomorrow = new Date(today);\n      tomorrow.setDate(tomorrow.getDate() + 1);\n      const tomorrowISO = tomorrow.toISOString();\n\n      // Get emails\n      const emails = await m365.mail.list(\x7b\n        filter: \x60receivedDateTime ge $\x7btodayISO\x7d and receivedDateTime lt $\x7btomorrowISO\x7d\x60,\n        select: \x27isRead,importance\x27,\n        top: 100\n      \x7d);\n\n      // Get meetings\n      const meetings = await m365.calendar.list(\x7b\n        filter: \x60start/dateTime ge \x27$\x7btodayISO\x7d\x27 and start/dateTime lt \x27$\x7btomorrowISO\x7d\x27\x60,\n        select: \x27start,end\x27\n      \x7d);\n\n      // Calculate meeting duration\n      let meetingMinutes = 0;\n      for (const event of meetings.value) \x7b\n        const start = new Date(event.start.dateTime);\n        const end = new Date(event.end.dateTime);\n        meetingMinutes += (end - start) / (1000 * 60);\n      \x7d\n\n      const emailStats = \x7b\n        total: emails.value.length,\n        unread: emails.value.filter(e => !e.isRead).length,\n        urgent: emails.value.filter(e => e.importance === \x27high\x27).length\n      \x7d;\n\n      return \x7b\n        date: today.toISOString().split(\x27T\x27)[0],\n        emails: emailStats,\n        meetings: \x7b\n          count: meetings.value.length,\n          totalMinutes: Math.round(meetingMinutes)\n        \x7d,\n        summary: \x60$\x7bemailStats.total\x7d emails ($\x7bemailStats.unread\x7d unread, $\x7bemailStats.urgent\x7d urgent), $\x7bmeetings.value.length\x7d meetings ($\x7bMath.round(meetingMinutes / 60)\x7dh $\x7bMath.round(meetingMinutes % 60)\x7dm)\x60\n      \x7d;\n    "
  tags := some ["productivity", "summary", "daily", "report", "overview"]
  isPublic := some true
  isBuiltin := some true

/-- The fixed catalog `BUILTIN_SKILLS` (src/builtin-skills.ts, lines 9-290). -/
def BUILTIN_SKILLS : List PartialSkill :=
  [builtinSkill1, builtinSkill2, builtinSkill3, builtinSkill4, builtinSkill5, builtinSkill6]

/-- The loop body of `loadBuiltinSkills`: for each catalog entry, skip it when
its (truthy) name already resolves via `getByName`; otherwise attempt a save
with a fresh generated id, counting successes in `loaded` and swallowing
failures.  `k` counts the ids consumed so far. -/
def loadLoop (ids : Nat → String) (now : Nat) :
    List PartialSkill → List Skill → Nat → Nat → List Skill × Nat
  | [], store, _, loaded => (store, loaded)
  | d :: rest, store, k, loaded =>
    if isFalsy d.name = false ∧ (SkillStorage.getByName store (d.name.getD "")).isSome = true then
      loadLoop ids now rest store k loaded
    else
      match SkillStorage.save (ids k) now store d with
      | .ok (store2, _) => loadLoop ids now rest store2 (k + 1) (loaded + 1)
      | .error _ => loadLoop ids now rest store (k + 1) loaded

/-- `loadBuiltinSkills` (src/builtin-skills.ts, lines 296-324): seeds the
catalog into the store and returns the resulting store together with the
number of newly loaded records. -/
def loadBuiltinSkills (ids : Nat → String) (now : Nat) (store : List Skill) :
    List Skill × Nat :=
  loadLoop ids now BUILTIN_SKILLS store 0 0

/-- Skill resolution of the `execute-m365-skill` and `get-m365-skill` tool
handlers (src/skill-tools.ts, lines 322-325): by id first, then by name. -/
def resolveSkill (store : List Skill) (skillId : String) : Option Skill :=
  match SkillStorage.get store skillId with
  | some s => some s
  | none => SkillStorage.getByName store skillId

/-- The `execute-m365-skill` handler (src/skill-tools.ts, lines 309-387),
with the Execution Engine's outcome abstracted as the `run` argument (it is
host-VM real-time behaviour, see `executeM365Code`).  A failed run throws out
of the handler before `incrementUsage`; a successful run increments the
counter and reports `skill.usageCount + 1` for the copy loaded at resolution
time. -/
def executeSkillHandler (newId : String) (now : Nat) (store : List Skill)
    (skillId : String) (run : Except String Unit) : List Skill × Except String Nat :=
  match resolveSkill store skillId with
  | none => (store, .error ("Skill not found: " ++ skillId))
  | some skill =>
    match run with
    | .error e => (store, .error e)
    | .ok _ =>
      match SkillStorage.incrementUsage newId now store skill.id with
      | .error e => (store, .error e)
      | .ok store2 => (store2, .ok (skill.usageCount + 1))

/-- The `delete-m365-skill` handler (src/skill-tools.ts, lines 504-533):
refuses when the looked-up record's `isBuiltin` is truthy, otherwise unlinks
and reports not-found when nothing was removed. -/
def deleteSkillHandler (store : List Skill) (skillId : String) :
    List Skill × Except String Unit :=
  let builtin : Bool :=
    match SkillStorage.get store skillId with
    | some s => s.isBuiltin.getD false
    | none => false
  if builtin then (store, .error "Cannot delete built-in skills")
  else
    let r := SkillStorage.delete store skillId
    if r.2 then (r.1, .ok ()) else (store, .error ("Skill not found: " ++ skillId))

/-- Well-formedness every record persisted through `save` enjoys: the id and
the four required fields are non-empty strings (the spec's §3 invariant). -/
def WFSkill (s : Skill) : Bool :=
  decide (s.id ≠ "" ∧ s.name ≠ "" ∧ s.description ≠ "" ∧ s.code ≠ "" ∧ s.category ≠ "")

/-- Modelled from the spec: §4.4's filter contract, "applies all supplied
filter predicates conjunctively (`category` exact match, `author` exact match,
`isPublic` exact match, `isBuiltin` — undefined treated as false — exact
match, `tags` — at least one of the filter's tags present in the skill's
tags)".  Unlike the source's `passesFilters`, a supplied empty-string
`category`/`author` is still an exact-match predicate here. -/
def specPassesFilters (f : SkillFilters) (s : Skill) : Bool :=
  (match f.category with
   | none => true
   | some c => decide (s.category = c)) &&
  (match f.author with
   | none => true
   | some a => decide (s.author = some a)) &&
  (match f.isPublic with
   | none => true
   | some b => decide (s.isPublic = b)) &&
  (match f.isBuiltin with
   | none => true
   | some b => decide ((s.isBuiltin = some true) = (b = true))) &&
  (match f.tags with
   | none => true
   | some ts => ts.any (fun tag => (s.tags.getD []).contains tag))

/-- A catalog entry the loader can always save: no id yet, and all four
required fields truthy.  Every `BUILTIN_SKILLS` entry satisfies this. -/
def goodDef (d : PartialSkill) : Bool :=
  decide (isFalsy d.id = true ∧ isFalsy d.name = false ∧ isFalsy d.description = false ∧
    isFalsy d.code = false ∧ isFalsy d.category = false)

/-- Some record in the store carries this name. -/
def namePresent (store : List Skill) (n : String) : Prop :=
  ∃ s ∈ store, s.name = n

/-- The record built by the creation branch of `save`. -/
def createdRecord (newId : String) (now : Nat) (p : PartialSkill) : Skill :=
  { id := newId
    name := p.name.getD ""
    description := p.description.getD ""
    category := p.category.getD ""
    code := p.code.getD ""
    author := p.author
    tags := p.tags
    createdAt := now
    updatedAt := now
    usageCount := 0
    isPublic := p.isPublic.getD false
    isBuiltin := some (p.isBuiltin.getD false) }

/-- A script that only calls a capability operation and returns a plain
value (the shape of §8's validator-acceptance scenario). -/
def capOnlyScript : String :=
  "const messages = await m365.mail.list(); return messages.value;"

/-- Concrete mail-category record used in counterexamples and witnesses. -/
def sampleSkillMail : Skill :=
  { id := "id-mail", name := "mailSkill", description := "d", category := "mail",
    code := "return 1;", createdAt := 0, updatedAt := 0, usageCount := 2,
    isPublic := true }

/-- A second concrete record sharing `sampleSkillMail`'s name with a higher
usage count. -/
def sampleSkillMail2 : Skill :=
  { id := "id-mail2", name := "mailSkill", description := "d2", category := "mail",
    code := "return 2;", createdAt := 0, updatedAt := 0, usageCount := 7,
    isPublic := false }

/-- Concrete builtin-marked record used in witnesses. -/
def sampleBuiltinSkill : Skill :=
  { id := "id-b", name := "builtinSkill", description := "db", category := "general",
    code := "return 3;", createdAt := 0, updatedAt := 0, usageCount := 0,
    isPublic := true, isBuiltin := some true }

/-- Concrete valid creation payload used in witnesses. -/
def samplePartial : PartialSkill :=
  { name := some "newSkill", description := some "nd", category := some "mail",
    code := some "return 4;" }

/-- Concrete invalid creation payload (missing `description`). -/
def sampleMissing : PartialSkill :=
  { name := some "x", code := some "return 5;", category := some "mail" }

/-- Concrete id generator used in witnesses for the builtin loader. -/
def sampleIds (n : Nat) : String := String.mk (List.replicate (n + 1) 'u')

open SkillStorage in
theorem perm_insertByUsage (x : Skill) (l : List Skill) :
    (insertByUsage x l).Perm (x :: l) := by
  induction l with
  | nil => simp [insertByUsage]
  | cons y ys ih =>
    by_cases h : y.usageCount < x.usageCount
    · simp [insertByUsage, h]
    · simp only [insertByUsage, if_neg h]
      exact (ih.cons y).trans (List.Perm.swap x y ys)

open SkillStorage in
theorem perm_foldl_insert (l : List Skill) :
    ∀ acc : List Skill,
      (l.foldl (fun acc x => insertByUsage x acc) acc).Perm (acc ++ l) := by
  induction l with
  | nil => intro acc; simp
  | cons x xs ih =>
    intro acc
    simp only [List.foldl_cons]
    exact (ih (insertByUsage x acc)).trans
      (((perm_insertByUsage x acc).append_right xs).trans List.perm_middle.symm)

open SkillStorage in
theorem perm_sortByUsageDesc (l : List Skill) : (sortByUsageDesc l).Perm l := by
  simpa [sortByUsageDesc] using perm_foldl_insert l []

open SkillStorage in
theorem mem_insertByUsage {t x : Skill} {l : List Skill} :
    t ∈ insertByUsage x l ↔ t = x ∨ t ∈ l := by
  simpa using (perm_insertByUsage x l).mem_iff

open SkillStorage in
theorem pairwise_insertByUsage {x : Skill} {l : List Skill}
    (h : l.Pairwise (fun a b => b.usageCount ≤ a.usageCount)) :
    (insertByUsage x l).Pairwise (fun a b => b.usageCount ≤ a.usageCount) := by
  induction l with
  | nil => simp [insertByUsage]
  | cons y ys ih =>
    rcases List.pairwise_cons.mp h with ⟨hy, hys⟩
    by_cases hlt : y.usageCount < x.usageCount
    · simp only [insertByUsage, if_pos hlt]
      refine List.pairwise_cons.mpr ⟨?_, h⟩
      intro t ht
      rcases List.mem_cons.mp ht with rfl | ht
      · omega
      · have := hy t ht; omega
    · simp only [insertByUsage, if_neg hlt]
      refine List.pairwise_cons.mpr ⟨?_, ih hys⟩
      intro t ht
      rcases mem_insertByUsage.mp ht with rfl | ht
      · omega
      · exact hy t ht

open SkillStorage in
theorem pairwise_sortByUsageDesc (l : List Skill) :
    (sortByUsageDesc l).Pairwise (fun a b => b.usageCount ≤ a.usageCount) := by
  have key : ∀ acc : List Skill,
      acc.Pairwise (fun a b => b.usageCount ≤ a.usageCount) →
      (l.foldl (fun acc x => insertByUsage x acc) acc).Pairwise
        (fun a b => b.usageCount ≤ a.usageCount) := by
    induction l with
    | nil => intro acc h; simpa using h
    | cons x xs ih => intro acc h; exact ih _ (pairwise_insertByUsage h)
  simpa [sortByUsageDesc] using key [] (by simp)

theorem find?_pairwise_max {p : Skill → Bool} {l : List Skill} {r : Skill}
    (hp : l.Pairwise (fun a b => b.usageCount ≤ a.usageCount))
    (hf : l.find? p = some r) :
    ∀ t ∈ l, p t = true → t.usageCount ≤ r.usageCount := by
  induction l with
  | nil => simp at hf
  | cons a l ih =>
    rcases List.pairwise_cons.mp hp with ⟨ha, hl⟩
    by_cases hpa : p a = true
    · rw [List.find?_cons_of_pos _ hpa] at hf
      obtain rfl : a = r := by injection hf
      intro t ht hpt
      rcases List.mem_cons.mp ht with rfl | ht
      · exact le_refl _
      · exact ha t ht
    · rw [List.find?_cons_of_neg _ hpa] at hf
      intro t ht hpt
      rcases List.mem_cons.mp ht with rfl | ht
      · exact absurd hpt hpa
      · exact ih hl hf t ht hpt

open SkillStorage in
theorem passesFilters_empty (s : Skill) : passesFilters {} s = true := rfl

open SkillStorage in
theorem list_noFilters_perm (store : List Skill) :
    (SkillStorage.list store {}).Perm store := by
  have hf : store.filter (passesFilters {}) = store :=
    List.filter_eq_self.mpr (fun a _ => passesFilters_empty a)
  simp only [SkillStorage.list, hf]
  exact perm_sortByUsageDesc store

open SkillStorage in
theorem getByName_isSome_iff (store : List Skill) (n : String) :
    (getByName store n).isSome = true ↔ ∃ s ∈ store, s.name = n := by
  unfold getByName
  rw [List.find?_isSome]
  constructor
  · rintro ⟨x, hx, hpx⟩
    exact ⟨x, (list_noFilters_perm store).mem_iff.mp hx, of_decide_eq_true hpx⟩
  · rintro ⟨x, hx, hn⟩
    exact ⟨x, (list_noFilters_perm store).mem_iff.mpr hx, decide_eq_true hn⟩

open SkillStorage in
theorem getByName_eq_none_iff (store : List Skill) (n : String) :
    getByName store n = none ↔ ∀ s ∈ store, s.name ≠ n := by
  rw [← Option.not_isSome_iff_eq_none, getByName_isSome_iff]
  push_neg
  rfl

open SkillStorage in
theorem getByName_some {store : List Skill} {n : String} {r : Skill}
    (h : getByName store n = some r) : r ∈ store ∧ r.name = n := by
  unfold getByName at h
  have hp := List.find?_some h
  simp at hp
  exact ⟨(list_noFilters_perm store).mem_iff.mp (List.mem_of_find?_eq_some h), hp⟩

open SkillStorage in
theorem get_some {store : List Skill} {id : String} {s : Skill}
    (h : SkillStorage.get store id = some s) : s ∈ store ∧ s.id = id := by
  unfold SkillStorage.get at h
  have hp := List.find?_some h
  simp at hp
  exact ⟨List.mem_of_find?_eq_some h, hp⟩

open SkillStorage in
theorem get_of_mem_nodup {store : List Skill} {s : Skill}
    (hnd : (store.map (fun t => t.id)).Nodup) (hs : s ∈ store) :
    SkillStorage.get store s.id = some s := by
  induction store with
  | nil => simp at hs
  | cons a l ih =>
    rw [List.map_cons, List.nodup_cons] at hnd
    rcases List.mem_cons.mp hs with rfl | hs
    · unfold SkillStorage.get
      exact List.find?_cons_of_pos _ (by simp)
    · have hne : a.id ≠ s.id := by
        intro he
        exact hnd.1 (by rw [he]; exact List.mem_map_of_mem (fun t => t.id) hs)
      unfold SkillStorage.get
      rw [List.find?_cons_of_neg _ (by simp [hne])]
      exact ih hnd.2 hs

open SkillStorage in
theorem writeRecord_append {store : List Skill} {s : Skill}
    (h : ∀ t ∈ store, t.id ≠ s.id) : writeRecord store s = store ++ [s] := by
  have hc : (store.any fun t => decide (t.id = s.id)) = false := by
    rw [List.any_eq_false]
    intro t ht
    simp [h t ht]
  unfold writeRecord
  rw [if_neg (by simp [hc])]

open SkillStorage in
theorem find?_replaceById (s : Skill) :
    ∀ store : List Skill, (∃ t ∈ store, t.id = s.id) →
      (store.map (fun t => if t.id = s.id then s else t)).find?
        (fun t => decide (t.id = s.id)) = some s := by
  intro store
  induction store with
  | nil => rintro ⟨t, ht, _⟩; simp at ht
  | cons a l ih =>
    rintro ⟨t, ht, he⟩
    by_cases ha : a.id = s.id
    · simp only [List.map_cons, if_pos ha]
      exact List.find?_cons_of_pos _ (by simp)
    · simp only [List.map_cons, if_neg ha]
      rw [List.find?_cons_of_neg _ (by simp [ha])]
      apply ih
      rcases List.mem_cons.mp ht with rfl | h2
      · exact absurd he ha
      · exact ⟨t, h2, he⟩

open SkillStorage in
theorem get_writeRecord_replace {store : List Skill} {s : Skill}
    (h : ∃ t ∈ store, t.id = s.id) :
    SkillStorage.get (writeRecord store s) s.id = some s := by
  have hc : (store.any fun t => decide (t.id = s.id)) = true := by
    rcases h with ⟨t, ht, he⟩
    exact List.any_eq_true.mpr ⟨t, ht, by simp [he]⟩
  unfold writeRecord
  rw [if_pos hc]
  exact find?_replaceById s store h

open SkillStorage in
theorem save_create (newId : String) (now : Nat) (store : List Skill) (p : PartialSkill)
    (hid : isFalsy p.id = true) (hn : isFalsy p.name = false)
    (hd : isFalsy p.description = false) (hc : isFalsy p.code = false)
    (hk : isFalsy p.category = false) :
    SkillStorage.save newId now store p =
      .ok (writeRecord store (createdRecord newId now p), createdRecord newId now p) := by
  cases hb : p.isBuiltin <;>
    simp [SkillStorage.save, createdRecord, hid, hn, hd, hc, hk, hb]

open SkillStorage in
theorem save_update (newId : String) (now : Nat) (store : List Skill) (s : Skill)
    (hwf : WFSkill s = true) :
    SkillStorage.save newId now store (Skill.toPartial s) =
      .ok (writeRecord store { s with updatedAt := now }, { s with updatedAt := now }) := by
  simp only [WFSkill, decide_eq_true_eq] at hwf
  obtain ⟨h1, h2, h3, h4, h5⟩ := hwf
  simp [SkillStorage.save, Skill.toPartial, isFalsy, h1, h2, h3, h4, h5]

open SkillStorage in
theorem incrementUsage_not_found (newId : String) (now : Nat) (store : List Skill)
    (id : String) (h : SkillStorage.get store id = none) :
    incrementUsage newId now store id = .ok store := by
  unfold incrementUsage
  rw [h]

open SkillStorage in
theorem incrementUsage_found (newId : String) (now : Nat) (store : List Skill) (id : String)
    (s : Skill) (h : SkillStorage.get store id = some s) (hwf : WFSkill s = true) :
    incrementUsage newId now store id =
      .ok (writeRecord store { s with usageCount := s.usageCount + 1, updatedAt := now }) ∧
    SkillStorage.get (writeRecord store { s with usageCount := s.usageCount + 1, updatedAt := now })
        id = some { s with usageCount := s.usageCount + 1, updatedAt := now } := by
  have hwf2 : WFSkill { s with usageCount := s.usageCount + 1 } = true := by
    simp only [WFSkill, decide_eq_true_eq] at hwf ⊢
    exact hwf
  have hmem := get_some h
  constructor
  · unfold incrementUsage
    rw [h]
    simp only [save_update newId now store _ hwf2, Except.map]
  · have hex : ∃ t ∈ store,
        t.id = ({ s with usageCount := s.usageCount + 1, updatedAt := now } : Skill).id :=
      ⟨s, hmem.1, rfl⟩
    have hw := get_writeRecord_replace hex
    rw [← hmem.2]
    exact hw

theorem foldl_validate (code : String) :
    ∀ (ps : List String) (acc : List String),
      ps.foldl (fun errs p =>
        if strIncludes code p then errs ++ ["Forbidden pattern detected: " ++ p] else errs)
        acc =
      acc ++ (ps.filter (fun p => strIncludes code p)).map
        (fun p => "Forbidden pattern detected: " ++ p) := by
  intro ps
  induction ps with
  | nil => intro acc; simp
  | cons q qs ih =>
    intro acc
    by_cases hq : strIncludes code q = true
    · simp [List.foldl_cons, List.filter_cons, hq, ih]
    · simp [List.foldl_cons, List.filter_cons, hq, ih]

/-- C1: for every script text, `validateCode` is invalid exactly when some
deny-listed pattern occurs as a substring, reports one descriptive error per
matched pattern, and accepts a script that only calls a capability operation
and returns a plain value. -/
theorem validateCode_spec :
    (∀ code : String,
      ((SkillStorage.validateCode code).valid = false ↔
        ∃ p ∈ forbidden, strIncludes code p = true) ∧
      (SkillStorage.validateCode code).errors =
        (forbidden.filter (fun p => strIncludes code p)).map
          (fun p => "Forbidden pattern detected: " ++ p)) ∧
    (SkillStorage.validateCode capOnlyScript).valid = true := by
  constructor
  · intro code
    have hE : (SkillStorage.validateCode code).errors =
        (forbidden.filter (fun p => strIncludes code p)).map
          (fun p => "Forbidden pattern detected: " ++ p) := by
      simp [SkillStorage.validateCode, foldl_validate code forbidden []]
    refine ⟨?_, hE⟩
    have hv : (SkillStorage.validateCode code).valid =
        (SkillStorage.validateCode code).errors.isEmpty := rfl
    rw [hv, hE]
    simp [List.isEmpty_iff, List.filter_eq_nil_iff]
  · decide

/-- C2: a valid creation (no id supplied, all required fields present) returns
a record with the fresh non-empty id, `createdAt` equal to `updatedAt`, zero
usage count, and `isBuiltin` defaulted to `false` when not supplied. -/
theorem save_creation_spec (newId : String) (now : Nat) (store : List Skill)
    (p : PartialSkill) (hid : isFalsy p.id = true) (hn : isFalsy p.name = false)
    (hd : isFalsy p.description = false) (hc : isFalsy p.code = false)
    (hk : isFalsy p.category = false) (hnew : newId ≠ "") :
    ∃ store2 sk, SkillStorage.save newId now store p = .ok (store2, sk) ∧
      sk.id = newId ∧ sk.id ≠ "" ∧ sk.createdAt = sk.updatedAt ∧
      sk.createdAt = now ∧ sk.usageCount = 0 ∧
      sk.isBuiltin = some (p.isBuiltin.getD false) := by
  refine ⟨_, _, save_create newId now store p hid hn hd hc hk, ?_, ?_, ?_, ?_, ?_, ?_⟩ <;>
    simp [createdRecord, hnew]

/-- C2 witness at a concrete creation. -/
theorem save_creation_spec_witness :
    (isFalsy samplePartial.id = true ∧ isFalsy samplePartial.name = false ∧
     isFalsy samplePartial.description = false ∧ isFalsy samplePartial.code = false ∧
     isFalsy samplePartial.category = false ∧ ("uuid-1" : String) ≠ "") ∧
    (∃ store2 sk, SkillStorage.save "uuid-1" 5 [] samplePartial = .ok (store2, sk) ∧
      sk.id = "uuid-1" ∧ sk.id ≠ "" ∧ sk.createdAt = sk.updatedAt ∧
      sk.createdAt = 5 ∧ sk.usageCount = 0 ∧
      sk.isBuiltin = some (samplePartial.isBuiltin.getD false)) :=
  ⟨by decide, save_creation_spec "uuid-1" 5 [] samplePartial (by decide) (by decide)
    (by decide) (by decide) (by decide) (by decide)⟩

theorem isFalsy_none : isFalsy none = true := rfl

theorem isFalsy_some (x : String) : isFalsy (some x) = decide (x = "") := rfl

/-- C3: a partial skill missing any one of the four required fields is
rejected with the validation error, and the stored state visible through
`get` and `list` is exactly what it was before the call. -/
theorem save_missing_field_spec (newId : String) (now : Nat) (store : List Skill)
    (p : PartialSkill)
    (h : p.name = none ∨ p.description = none ∨ p.code = none ∨ p.category = none) :
    SkillStorage.save newId now store p =
      .error "Missing required skill fields: name, description, code, category" ∧
    SkillStorage.savePost newId now store p = store ∧
    (∀ q, SkillStorage.get (SkillStorage.savePost newId now store p) q =
      SkillStorage.get store q) ∧
    (∀ f, SkillStorage.list (SkillStorage.savePost newId now store p) f =
      SkillStorage.list store f) := by
  have herr : SkillStorage.save newId now store p =
      .error "Missing required skill fields: name, description, code, category" := by
    rcases h with h | h | h | h <;>
      · cases hid : isFalsy p.id <;> cases hb : p.isBuiltin <;>
          simp [SkillStorage.save, hid, h, hb, isFalsy_none, isFalsy_some]
  refine ⟨herr, ?_, fun q => ?_, fun f => ?_⟩ <;> simp [SkillStorage.savePost, herr]

/-- C3 witness at a concrete payload missing `description`. -/
theorem save_missing_field_spec_witness :
    (sampleMissing.name = none ∨ sampleMissing.description = none ∨
     sampleMissing.code = none ∨ sampleMissing.category = none) ∧
    (SkillStorage.save "uuid-2" 5 [sampleSkillMail] sampleMissing =
      .error "Missing required skill fields: name, description, code, category" ∧
    SkillStorage.savePost "uuid-2" 5 [sampleSkillMail] sampleMissing = [sampleSkillMail] ∧
    (∀ q, SkillStorage.get (SkillStorage.savePost "uuid-2" 5 [sampleSkillMail] sampleMissing) q =
      SkillStorage.get [sampleSkillMail] q) ∧
    (∀ f, SkillStorage.list (SkillStorage.savePost "uuid-2" 5 [sampleSkillMail] sampleMissing) f =
      SkillStorage.list [sampleSkillMail] f)) :=
  ⟨by decide, save_missing_field_spec "uuid-2" 5 [sampleSkillMail] sampleMissing (by decide)⟩

/-- C5 counterexample: with a supplied empty-string `category` filter the
source skips the filter entirely (JavaScript truthiness), so `list` keeps a
record whose category is `"mail"`, while the claim's exact-match reading of
the supplied predicate excludes every record. -/
theorem list_filter_counterexample :
    SkillStorage.list [sampleSkillMail] { category := some "" } = [sampleSkillMail] ∧
    [sampleSkillMail].filter (specPassesFilters { category := some "" }) = [] := by
  decide

/-- C5 (amended): for filter bags whose `category` and `author`, when
supplied, are non-empty strings (the JS-truthiness proviso), `list` returns
exactly the records satisfying all supplied predicates conjunctively — a
permutation of the conjunctive filter of the store, whose predicate agrees
with the spec's exact-match reading — sorted by usage count descending. -/
theorem list_filter_spec (store : List Skill) (f : SkillFilters)
    (hc : f.category ≠ some "") (ha : f.author ≠ some "") :
    (SkillStorage.list store f).Perm
      (store.filter (SkillStorage.passesFilters f)) ∧
    (SkillStorage.list store f).Pairwise (fun a b => b.usageCount ≤ a.usageCount) ∧
    ∀ s, SkillStorage.passesFilters f s = specPassesFilters f s := by
  refine ⟨?_, ?_, ?_⟩
  · simp only [SkillStorage.list]
    exact perm_sortByUsageDesc _
  · simp only [SkillStorage.list]
    exact pairwise_sortByUsageDesc _
  · intro s
    have e1 : (match f.category with
        | none => true
        | some c => if c = "" then true else decide (s.category = c)) =
        (match f.category with
        | none => true
        | some c => decide (s.category = c)) := by
      cases hcat : f.category with
      | none => rfl
      | some c =>
        have hne : ¬(c = "") := by intro e; exact hc (by rw [hcat, e])
        simp [hne]
    have e2 : (match f.author with
        | none => true
        | some a => if a = "" then true else decide (s.author = some a)) =
        (match f.author with
        | none => true
        | some a => decide (s.author = some a)) := by
      cases hau : f.author with
      | none => rfl
      | some a =>
        have hne : ¬(a = "") := by intro e; exact ha (by rw [hau, e])
        simp [hne]
    unfold SkillStorage.passesFilters specPassesFilters
    rw [e1, e2]

/-- C5 witness at a concrete store and a concrete non-degenerate filter. -/
theorem list_filter_spec_witness :
    (({ category := some "mail" } : SkillFilters).category ≠ some "" ∧
     ({ category := some "mail" } : SkillFilters).author ≠ some "") ∧
    ((SkillStorage.list [sampleSkillMail] { category := some "mail" }).Perm
      ([sampleSkillMail].filter (SkillStorage.passesFilters { category := some "mail" })) ∧
    (SkillStorage.list [sampleSkillMail] { category := some "mail" }).Pairwise
      (fun a b => b.usageCount ≤ a.usageCount) ∧
    ∀ s, SkillStorage.passesFilters { category := some "mail" } s =
      specPassesFilters { category := some "mail" } s) :=
  ⟨by decide, list_filter_spec [sampleSkillMail] { category := some "mail" }
    (by decide) (by decide)⟩

/-- C7: `incrementUsage` bumps a stored record's usage count by exactly one,
as observed by a subsequent `get`, and is a successful no-op for an id with
no stored record. -/
theorem incrementUsage_spec (newId : String) (now : Nat) (store : List Skill) (id : String)
    (hwf : ∀ s, SkillStorage.get store id = some s → WFSkill s = true) :
    (SkillStorage.get store id = none →
      SkillStorage.incrementUsage newId now store id = .ok store) ∧
    (∀ s, SkillStorage.get store id = some s →
      ∃ store2, SkillStorage.incrementUsage newId now store id = .ok store2 ∧
        SkillStorage.get store2 id =
          some { s with usageCount := s.usageCount + 1, updatedAt := now }) := by
  constructor
  · exact incrementUsage_not_found newId now store id
  · intro s hs
    obtain ⟨h1, h2⟩ := incrementUsage_found newId now store id s hs (hwf s hs)
    exact ⟨_, h1, h2⟩

/-- C7 witness: a concrete store where the record is found. -/
theorem incrementUsage_spec_witness :
    (∀ s, SkillStorage.get [sampleSkillMail] "id-mail" = some s → WFSkill s = true) ∧
    ((SkillStorage.get [sampleSkillMail] "id-mail" = none →
      SkillStorage.incrementUsage "uuid-3" 9 [sampleSkillMail] "id-mail" =
        .ok [sampleSkillMail]) ∧
    (∀ s, SkillStorage.get [sampleSkillMail] "id-mail" = some s →
      ∃ store2,
        SkillStorage.incrementUsage "uuid-3" 9 [sampleSkillMail] "id-mail" = .ok store2 ∧
        SkillStorage.get store2 "id-mail" =
          some { s with usageCount := s.usageCount + 1, updatedAt := 9 })) :=
  ⟨fun s hs => by
    rw [show SkillStorage.get [sampleSkillMail] "id-mail" = some sampleSkillMail
      from by decide] at hs
    exact (Option.some.inj hs) ▸ (by decide : WFSkill sampleSkillMail = true),
   incrementUsage_spec "uuid-3" 9 [sampleSkillMail] "id-mail" (fun s hs => by
    rw [show SkillStorage.get [sampleSkillMail] "id-mail" = some sampleSkillMail
      from by decide] at hs
    exact (Option.some.inj hs) ▸ (by decide : WFSkill sampleSkillMail = true))⟩

/-- C8: the delete tool handler refuses to remove a stored record flagged
builtin (the record remains stored), and removes a stored non-builtin record
so that a subsequent `get` returns not-found. -/
theorem deleteSkill_spec (store : List Skill) (id : String) (s : Skill)
    (hget : SkillStorage.get store id = some s) :
    (s.isBuiltin = some true →
      deleteSkillHandler store id = (store, .error "Cannot delete built-in skills") ∧
      SkillStorage.get store id = some s) ∧
    (s.isBuiltin ≠ some true →
      ∃ store2, deleteSkillHandler store id = (store2, .ok ()) ∧
        SkillStorage.get store2 id = none) := by
  constructor
  · intro hb
    refine ⟨?_, hget⟩
    simp only [deleteSkillHandler, hget, hb]
    rfl
  · intro hb
    have hbf : s.isBuiltin.getD false = false := by
      cases hbi : s.isBuiltin with
      | none => rfl
      | some b =>
        cases b with
        | false => rfl
        | true => exact absurd hbi hb
    have hany : (store.any fun t => decide (t.id = id)) = true := by
      obtain ⟨hmem, hid⟩ := get_some hget
      exact List.any_eq_true.mpr ⟨s, hmem, by simp [hid]⟩
    refine ⟨store.filter (fun t => !(decide (t.id = id))), ?_, ?_⟩
    · simp only [deleteSkillHandler, SkillStorage.delete, hget, hbf, hany]
      rfl
    · unfold SkillStorage.get
      rw [List.find?_eq_none]
      intro t ht
      simpa using (List.mem_filter.mp ht).2

/-- C8 witness: a builtin-flagged record is kept, a plain record is removed. -/
theorem deleteSkill_spec_witness :
    (SkillStorage.get [sampleBuiltinSkill] "id-b" = some sampleBuiltinSkill) ∧
    ((sampleBuiltinSkill.isBuiltin = some true →
      deleteSkillHandler [sampleBuiltinSkill] "id-b" =
        ([sampleBuiltinSkill], .error "Cannot delete built-in skills") ∧
      SkillStorage.get [sampleBuiltinSkill] "id-b" = some sampleBuiltinSkill) ∧
    (sampleBuiltinSkill.isBuiltin ≠ some true →
      ∃ store2, deleteSkillHandler [sampleBuiltinSkill] "id-b" = (store2, .ok ()) ∧
        SkillStorage.get store2 "id-b" = none)) :=
  ⟨by decide, deleteSkill_spec [sampleBuiltinSkill] "id-b" sampleBuiltinSkill (by decide)⟩

/-- C10: when stored records share a name, `getByName` returns a matching
record whose usage count is maximal among all records with that name, because
it takes the first match of the usage-count-descending listing. -/
theorem getByName_max_usage (store : List Skill) (n : String) (s : Skill)
    (hs : s ∈ store) (hn : s.name = n) :
    ∃ r, SkillStorage.getByName store n = some r ∧ r.name = n ∧
      ∀ t ∈ store, t.name = n → t.usageCount ≤ r.usageCount := by
  have hsome : (SkillStorage.getByName store n).isSome = true :=
    (getByName_isSome_iff store n).mpr ⟨s, hs, hn⟩
  obtain ⟨r, hr⟩ := Option.isSome_iff_exists.mp hsome
  refine ⟨r, hr, (getByName_some hr).2, ?_⟩
  intro t ht htn
  have hpair : (SkillStorage.list store {}).Pairwise
      (fun a b => b.usageCount ≤ a.usageCount) := by
    simp only [SkillStorage.list]
    exact pairwise_sortByUsageDesc _
  have hmem : t ∈ SkillStorage.list store {} := (list_noFilters_perm store).mem_iff.mpr ht
  have hre : SkillStorage.getByName store n =
      (SkillStorage.list store {}).find? (fun x => decide (x.name = n)) := rfl
  exact find?_pairwise_max hpair (hre ▸ hr) t hmem (decide_eq_true htn)

/-- C10 witness: two records share a name; the higher-usage one is returned. -/
theorem getByName_max_usage_witness :
    (sampleSkillMail ∈ [sampleSkillMail, sampleSkillMail2] ∧
     sampleSkillMail.name = "mailSkill") ∧
    (∃ r, SkillStorage.getByName [sampleSkillMail, sampleSkillMail2] "mailSkill" = some r ∧
      r.name = "mailSkill" ∧
      ∀ t ∈ [sampleSkillMail, sampleSkillMail2], t.name = "mailSkill" →
        t.usageCount ≤ r.usageCount) :=
  ⟨by decide, getByName_max_usage [sampleSkillMail, sampleSkillMail2] "mailSkill"
    sampleSkillMail (by decide) (by decide)⟩

/-- C4: the execute tool leaves the stored usage count untouched when the
engine run fails or times out, and on a successful run increments the
resolved record's stored count by one and reports the resolution-time count
plus one. -/
theorem executeSkill_usage_spec (newId : String) (now : Nat) (store : List Skill)
    (skillId : String) (skill : Skill) (run : Except String Unit)
    (hres : resolveSkill store skillId = some skill)
    (hnd : (store.map (fun t => t.id)).Nodup)
    (hwf : WFSkill skill = true) :
    (∀ e, run = .error e →
      executeSkillHandler newId now store skillId run = (store, .error e)) ∧
    (run = .ok () → ∃ store2,
      executeSkillHandler newId now store skillId run = (store2, .ok (skill.usageCount + 1)) ∧
      SkillStorage.get store2 skill.id =
        some { skill with usageCount := skill.usageCount + 1, updatedAt := now }) := by
  have hmem : skill ∈ store := by
    unfold resolveSkill at hres
    cases hg : SkillStorage.get store skillId with
    | some t => rw [hg] at hres; cases hres; exact (get_some hg).1
    | none => rw [hg] at hres; exact (getByName_some hres).1
  have hself : SkillStorage.get store skill.id = some skill := get_of_mem_nodup hnd hmem
  constructor
  · intro e he
    simp only [executeSkillHandler, hres, he]
  · intro hok
    obtain ⟨h1, h2⟩ := incrementUsage_found newId now store skill.id skill hself hwf
    refine ⟨_, ?_, h2⟩
    simp only [executeSkillHandler, hres, hok, h1]

/-- C4 witness: a concrete resolvable skill and a successful run. -/
theorem executeSkill_usage_spec_witness :
    (resolveSkill [sampleSkillMail] "id-mail" = some sampleSkillMail ∧
     (([sampleSkillMail].map (fun t => t.id)).Nodup) ∧
     WFSkill sampleSkillMail = true) ∧
    ((∀ e, (Except.ok () : Except String Unit) = .error e →
      executeSkillHandler "uuid-4" 11 [sampleSkillMail] "id-mail" (.ok ()) =
        ([sampleSkillMail], .error e)) ∧
    ((Except.ok () : Except String Unit) = .ok () → ∃ store2,
      executeSkillHandler "uuid-4" 11 [sampleSkillMail] "id-mail" (.ok ()) =
        (store2, .ok (sampleSkillMail.usageCount + 1)) ∧
      SkillStorage.get store2 sampleSkillMail.id =
        some { sampleSkillMail with
          usageCount := sampleSkillMail.usageCount + 1, updatedAt := 11 })) :=
  ⟨by refine ⟨by decide, by decide, by decide⟩,
   executeSkill_usage_spec "uuid-4" 11 [sampleSkillMail] "id-mail" sampleSkillMail
     (.ok ()) (by decide) (by decide) (by decide)⟩

open SkillStorage in
theorem loadLoop_loaded_le (ids : Nat → String) (now : Nat) :
    ∀ (defs : List PartialSkill) (store : List Skill) (k loaded : Nat),
      loaded ≤ (loadLoop ids now defs store k loaded).2 := by
  intro defs
  induction defs with
  | nil => intro store k loaded; exact le_refl _
  | cons d rest ih =>
    intro store k loaded
    simp only [loadLoop]
    by_cases hcond : isFalsy d.name = false ∧
        (getByName store (d.name.getD "")).isSome = true
    · rw [if_pos hcond]
      exact ih store k loaded
    · rw [if_neg hcond]
      cases hs : SkillStorage.save (ids k) now store d with
      | ok r =>
        calc loaded ≤ loaded + 1 := Nat.le_succ _
          _ ≤ _ := ih r.1 (k + 1) (loaded + 1)
      | error e => exact ih store (k + 1) loaded

open SkillStorage in
theorem loadLoop_all_present (ids : Nat → String) (now : Nat) :
    ∀ (defs : List PartialSkill) (store : List Skill) (k loaded : Nat),
      (∀ d ∈ defs, isFalsy d.name = false ∧ namePresent store (d.name.getD "")) →
      loadLoop ids now defs store k loaded = (store, loaded) := by
  intro defs
  induction defs with
  | nil => intro store k loaded _; rfl
  | cons d rest ih =>
    intro store k loaded h
    obtain ⟨hname, hpres⟩ := h d (List.mem_cons_self d rest)
    have hsome : (getByName store (d.name.getD "")).isSome = true :=
      (getByName_isSome_iff store _).mpr hpres
    simp only [loadLoop]
    rw [if_pos ⟨hname, hsome⟩]
    exact ih store k loaded (fun d2 hd2 => h d2 (List.mem_cons_of_mem d hd2))

open SkillStorage in
theorem loadLoop_appends (ids : Nat → String) (now : Nat) :
    ∀ (defs : List PartialSkill) (store : List Skill) (k loaded : Nat),
      (∀ d ∈ defs, goodDef d = true) →
      (∀ j, k ≤ j → j < k + defs.length → ∀ t ∈ store, ids j ≠ t.id) →
      (∀ j j2, k ≤ j → j < j2 → j2 < k + defs.length → ids j ≠ ids j2) →
      ∃ added loaded2,
        loadLoop ids now defs store k loaded = (store ++ added, loaded + loaded2) ∧
        (∀ d ∈ defs, namePresent (store ++ added) (d.name.getD "")) := by
  intro defs
  induction defs with
  | nil =>
    intro store k loaded _ _ _
    exact ⟨[], 0, by simp [loadLoop], by simp⟩
  | cons d rest ih =>
    intro store k loaded hwf hfresh hdist
    obtain ⟨hdid, hdn, hdd, hdc, hdk⟩ :=
      of_decide_eq_true (hwf d (List.mem_cons_self d rest))
    by_cases hex : (getByName store (d.name.getD "")).isSome = true
    · have hstep : loadLoop ids now (d :: rest) store k loaded =
          loadLoop ids now rest store k loaded := by
        simp only [loadLoop]
        rw [if_pos ⟨hdn, hex⟩]
      obtain ⟨added, loaded2, hrun, hnames⟩ := ih store k loaded
        (fun d2 hd2 => hwf d2 (List.mem_cons_of_mem d hd2))
        (fun j hj1 hj2 t ht =>
          hfresh j hj1 (by simp only [List.length_cons]; omega) t ht)
        (fun j j2 hj1 hj2 hj3 =>
          hdist j j2 hj1 hj2 (by simp only [List.length_cons]; omega))
      refine ⟨added, loaded2, hstep.trans hrun, ?_⟩
      intro d2 hd2
      rcases List.mem_cons.mp hd2 with rfl | hd2
      · obtain ⟨t, htm, htn⟩ := (getByName_isSome_iff store _).mp hex
        exact ⟨t, List.mem_append_left _ htm, htn⟩
      · exact hnames d2 hd2
    · have hvalid := save_create (ids k) now store d hdid hdn hdd hdc hdk
      have hfreshk : ∀ t ∈ store, t.id ≠ (createdRecord (ids k) now d).id := by
        intro t ht e
        exact hfresh k (le_refl k) (by simp only [List.length_cons]; omega) t ht e.symm
      have happ : writeRecord store (createdRecord (ids k) now d) =
          store ++ [createdRecord (ids k) now d] := writeRecord_append hfreshk
      have hcond : ¬(isFalsy d.name = false ∧
          (getByName store (d.name.getD "")).isSome = true) := fun hcc => hex hcc.2
      have hstep : loadLoop ids now (d :: rest) store k loaded =
          loadLoop ids now rest (store ++ [createdRecord (ids k) now d]) (k + 1)
            (loaded + 1) := by
        simp only [loadLoop]
        rw [if_neg hcond, hvalid, happ]
      obtain ⟨added, loaded2, hrun, hnames⟩ :=
        ih (store ++ [createdRecord (ids k) now d]) (k + 1) (loaded + 1)
          (fun d2 hd2 => hwf d2 (List.mem_cons_of_mem d hd2))
          (fun j hj1 hj2 t ht => by
            rcases List.mem_append.mp ht with htl | htr
            · exact hfresh j (by omega) (by simp only [List.length_cons]; omega) t htl
            · have hts : t = createdRecord (ids k) now d := by simpa using htr
              rw [hts]
              exact Ne.symm (hdist k j (le_refl k) (by omega)
                (by simp only [List.length_cons]; omega))
          )
          (fun j j2 hj1 hj2 hj3 =>
            hdist j j2 (by omega) hj2 (by simp only [List.length_cons]; omega))
      refine ⟨createdRecord (ids k) now d :: added, 1 + loaded2, ?_, ?_⟩
      · rw [hstep, hrun]
        simp [List.append_assoc, List.singleton_append, Nat.add_assoc]
      · intro d2 hd2
        rcases List.mem_cons.mp hd2 with rfl | hd2
        · exact ⟨createdRecord (ids k) now d2,
            List.mem_append_right _ (List.mem_cons_self _ _), rfl⟩
        · obtain ⟨t, htm, htn⟩ := hnames d2 hd2
          refine ⟨t, ?_, htn⟩
          simp only [List.append_assoc, List.singleton_append] at htm
          exact htm

/-- C6: seeding is idempotent.  Starting from a store containing none of the
catalog names, with fresh and pairwise-distinct generated ids, the first
`loadBuiltinSkills` call loads a positive number of records, and a second
call (under any id generator and clock) loads exactly zero records and
leaves the store unchanged. -/
theorem loadBuiltinSkills_idempotent (ids ids2 : Nat → String) (now now2 : Nat)
    (store : List Skill)
    (hfresh : ∀ j, j < BUILTIN_SKILLS.length → ∀ t ∈ store, ids j ≠ t.id)
    (hdist : ∀ j2, j2 < BUILTIN_SKILLS.length → ∀ j, j < j2 → ids j ≠ ids j2)
    (habsent : ∀ d ∈ BUILTIN_SKILLS, ∀ t ∈ store, t.name ≠ d.name.getD "") :
    0 < (loadBuiltinSkills ids now store).2 ∧
    loadBuiltinSkills ids2 now2 (loadBuiltinSkills ids now store).1 =
      ((loadBuiltinSkills ids now store).1, 0) := by
  have hwfall : ∀ d ∈ BUILTIN_SKILLS, goodDef d = true := by decide
  have hnames0 : ∀ d ∈ BUILTIN_SKILLS, isFalsy d.name = false := by decide
  obtain ⟨added, loaded2, hrun, hnames⟩ :=
    loadLoop_appends ids now BUILTIN_SKILLS store 0 0 hwfall
      (fun j _ hj2 t ht => hfresh j (by simpa using hj2) t ht)
      (fun j j2 _ hj1 hj2 => hdist j2 (by simpa using hj2) j hj1)
  have hrun2 : loadBuiltinSkills ids now store = (store ++ added, loaded2) := by
    simpa using hrun
  constructor
  · -- the first catalog entry is saved, so at least one record is loaded
    have hnone1 : SkillStorage.getByName store (builtinSkill1.name.getD "") = none :=
      (getByName_eq_none_iff store _).mpr
        (fun t ht => habsent builtinSkill1 (List.mem_cons_self _ _) t ht)
    obtain ⟨h1id, h1n, h1d, h1c, h1k⟩ :=
      of_decide_eq_true (hwfall builtinSkill1 (List.mem_cons_self _ _))
    have hfresh1 : ∀ t ∈ store, t.id ≠ (createdRecord (ids 0) now builtinSkill1).id := by
      intro t ht e
      exact hfresh 0 (by decide) t ht e.symm
    have hstep : loadBuiltinSkills ids now store =
        loadLoop ids now
          [builtinSkill2, builtinSkill3, builtinSkill4, builtinSkill5, builtinSkill6]
          (store ++ [createdRecord (ids 0) now builtinSkill1]) 1 1 := by
      show loadLoop ids now BUILTIN_SKILLS store 0 0 = _
      simp only [BUILTIN_SKILLS, loadLoop]
      rw [if_neg (fun hcc => by simp [hnone1] at hcc),
        save_create (ids 0) now store builtinSkill1 h1id h1n h1d h1c h1k,
        writeRecord_append hfresh1]
    rw [hstep]
    calc (0 : Nat) < 1 := Nat.one_pos
      _ ≤ _ := loadLoop_loaded_le ids now _ _ 1 1
  · rw [hrun2]
    exact loadLoop_all_present ids2 now2 BUILTIN_SKILLS (store ++ added) 0 0
      (fun d hd => ⟨hnames0 d hd, hnames d hd⟩)

/-- C6 witness: seeding the empty store twice. -/
theorem loadBuiltinSkills_idempotent_witness :
    ((∀ j, j < BUILTIN_SKILLS.length → ∀ t ∈ ([] : List Skill), sampleIds j ≠ t.id) ∧
     (∀ j2, j2 < BUILTIN_SKILLS.length → ∀ j, j < j2 → sampleIds j ≠ sampleIds j2) ∧
     (∀ d ∈ BUILTIN_SKILLS, ∀ t ∈ ([] : List Skill), t.name ≠ d.name.getD "")) ∧
    (0 < (loadBuiltinSkills sampleIds 7 []).2 ∧
     loadBuiltinSkills sampleIds 8 (loadBuiltinSkills sampleIds 7 []).1 =
       ((loadBuiltinSkills sampleIds 7 []).1, 0)) :=
  ⟨⟨fun j _ t ht => absurd ht (List.not_mem_nil t),
    by decide,
    fun d _ t ht => absurd ht (List.not_mem_nil t)⟩,
   loadBuiltinSkills_idempotent sampleIds sampleIds 7 8 []
     (fun j _ t ht => absurd ht (List.not_mem_nil t))
     (by decide)
     (fun d _ t ht => absurd ht (List.not_mem_nil t))⟩

end M365
